import Mathlib

/-!
Verification development for the FlowState playlist-generation pipeline.

The definitions below are a shallow embedding of the TypeScript source:
pure functions become Lean functions, stateful loops become explicit
recursion, network calls (the Groq completion service, the YouTube data
API, the mirror search services) become oracle parameters describing the
outcome a call produced, and JavaScript numbers in the relevant code paths
(durations in seconds, list indices, retry delays in milliseconds) become
Nat or Int.  Strings are Lean String values; where a JS regular expression
is applied, the regex is embedded as an explicit character-level function
with the same matching semantics on the inputs the code feeds it.
-/

namespace FlowState

/-! ## Character helpers (JS regex character classes)

JS `\w` is `[A-Za-z0-9_]`, `\s` matches whitespace, `\d` is `[0-9]`. -/

/-- JS regex word character class `\w`. -/
def isWordChar (c : Char) : Bool := c.isAlphanum || c = '_'

/-- JS regex whitespace class `\s` (the forms appearing in this code base). -/
def isSpaceChar (c : Char) : Bool := c.isWhitespace

/-- List version of string prefix testing, used for embedded substring search. -/
def startsWithChars : List Char → List Char → Bool
  | [], _ => true
  | _ :: _, [] => false
  | a :: as, b :: bs => a = b && startsWithChars as bs

/-- Substring containment on character lists (JS `String.prototype.includes`). -/
def containsChars (needle : List Char) : List Char → Bool
  | [] => startsWithChars needle []
  | c :: cs => startsWithChars needle (c :: cs) || containsChars needle cs

/-! ## YouTubeSearchService.parseDuration

Embedding of `parseDuration` from the `YouTubeSearchService` class:

    const match = isoDuration.match(/PT(?:(\d+)H)?(?:(\d+)M)?(?:(\d+)S)?/);
    if (!match) return 0;
    return hours * 3600 + minutes * 60 + seconds;

The regex is unanchored; `match` finds the first occurrence of the literal
`PT` (every group after it is optional, so a match starts exactly at the
first `PT`).  After `PT`, each optional group `(\d+)X` consumes a maximal
digit run immediately followed by the unit letter, otherwise consumes
nothing (a shorter digit run can never be followed by the unit letter, so
greedy matching is exact here). -/

/-- Numeric value of a digit list (JS `parseInt` on the captured group). -/
def digitsToNat (l : List Char) : Nat :=
  l.foldl (fun a c => 10 * a + (c.toNat - 48)) 0

/-- One optional regex group `(?:(\d+)u)?` applied at the current position:
returns the captured value (0 when the group did not participate) and the
remaining input. -/
def grabComponent (u : Char) (l : List Char) : Nat × List Char :=
  if (l.takeWhile Char.isDigit).isEmpty then (0, l)
  else
    match l.drop (l.takeWhile Char.isDigit).length with
    | c :: rest =>
      if c = u then (digitsToNat (l.takeWhile Char.isDigit), rest) else (0, l)
    | [] => (0, l)

/-- Scan for the first occurrence of the literal `PT`; return the rest. -/
def afterPT : List Char → Option (List Char)
  | [] => none
  | 'P' :: 'T' :: rest => some rest
  | _ :: rest => afterPT rest

/-- `YouTubeSearchService.parseDuration` on a character list. -/
def parseDurationChars (l : List Char) : Nat :=
  match afterPT l with
  | none => 0
  | some r =>
    let hd := grabComponent 'H' r
    let md := grabComponent 'M' hd.2
    let sd := grabComponent 'S' md.2
    hd.1 * 3600 + md.1 * 60 + sd.1

/-- `YouTubeSearchService.parseDuration`. -/
def parseDuration (isoDuration : String) : Nat :=
  parseDurationChars isoDuration.toList

/-- Canonical rendering of one optional duration component. -/
def optComp (u : Char) : Option (List Char) → List Char
  | none => []
  | some ds => ds ++ [u]

/-- Canonical string fully matching `PT(\d+H)?(\d+M)?(\d+S)?`. -/
def durationLiteral (oh om os : Option (List Char)) : List Char :=
  'P' :: 'T' :: (optComp 'H' oh ++ optComp 'M' om ++ optComp 'S' os)

/-- Value of an optional captured digit group. -/
def optVal (o : Option (List Char)) : Nat :=
  match o with
  | none => 0
  | some ds => digitsToNat ds

/-! ## Data model (src/types/playlist)

`Track` as used by the generation pipeline; `duration` is in seconds. -/

/-- Frontend `Track` record. -/
structure Track where
  id : String
  title : String
  artist : String
  duration : Nat
  thumbnailUrl : String
  youtubeId : String
deriving DecidableEq

/-- Frontend `SearchResult` record (duration still a raw provider string). -/
structure SearchResult where
  videoId : String
  title : String
  channelTitle : String
  thumbnailUrl : String
  duration : String
deriving DecidableEq

/-- AI suggestion record. -/
structure SongSuggestion where
  title : String
  artist : String
deriving DecidableEq

/-- Playlist statistics; `averageEnergy` and `averageTempo` are JS numbers,
embedded as rationals. -/
structure PlaylistStats where
  totalDuration : Nat
  averageEnergy : ℚ
  averageTempo : ℚ
  trackCount : Nat
deriving DecidableEq

/-- Playlist record (`createdAt` is epoch milliseconds). -/
structure Playlist where
  id : String
  name : String
  tracks : List Track
  createdAt : Nat
  stats : PlaylistStats
deriving DecidableEq

/-! ## PlaylistGenerator.normalizeTitle and removeDuplicates

    title.toLowerCase().replace(/[^\w\s]/g, EMPTY).replace(/\s+/g, SPACE).trim()

(EMPTY is the empty string and SPACE a single space)

followed by the seen-set loop; the single `seen` set holds both video ids
and normalized titles. -/

/-- Collapse each maximal whitespace run into a single space
(the collapse-to-a-single-space replace step); the flag records whether the previous
character was part of a whitespace run. -/
def collapseSpacesGo : Bool → List Char → List Char
  | _, [] => []
  | prevSpace, c :: cs =>
    if isSpaceChar c then
      if prevSpace then collapseSpacesGo true cs
      else ' ' :: collapseSpacesGo true cs
    else c :: collapseSpacesGo false cs

/-- Strip leading and trailing whitespace (JS `trim`). -/
def trimChars (l : List Char) : List Char :=
  ((l.dropWhile isSpaceChar).reverse.dropWhile isSpaceChar).reverse

/-- `PlaylistGenerator.normalizeTitle`. -/
def normalizeTitle (title : String) : String :=
  (trimChars (collapseSpacesGo false
    ((title.toList.map Char.toLower).filter
      (fun c => isWordChar c || isSpaceChar c)))).asString

/-- The seen-set loop body of `PlaylistGenerator.removeDuplicates`; `seen`
holds the `youtubeId` and the normalized title of every kept track. -/
def dedupGo (seen : List String) : List Track → List Track
  | [] => []
  | t :: ts =>
    if seen.contains t.youtubeId then dedupGo seen ts
    else if seen.contains (normalizeTitle t.title) then dedupGo seen ts
    else t :: dedupGo (normalizeTitle t.title :: t.youtubeId :: seen) ts

/-- `PlaylistGenerator.removeDuplicates`. -/
def removeDuplicates (tracks : List Track) : List Track :=
  dedupGo [] tracks

/-- Amended collision relation actually enforced by the shared seen set:
besides id-vs-id and title-vs-title it also compares each field against the
other kind of key. -/
def collides (t u : Track) : Bool :=
  t.youtubeId == u.youtubeId || t.youtubeId == normalizeTitle u.title ||
  normalizeTitle t.title == u.youtubeId ||
  normalizeTitle t.title == normalizeTitle u.title

/-- Specification-level deduplication against the list of already kept
tracks, used to characterize `removeDuplicates`. -/
def dedupeSpec (kept : List Track) : List Track → List Track
  | [] => []
  | t :: ts =>
    if kept.any (fun u => collides t u) then dedupeSpec kept ts
    else t :: dedupeSpec (kept ++ [t]) ts

/-! ## PlaylistService.calculateStats and createPlaylist -/

/-- `PlaylistService.calculateStats`: the sum is the `reduce` over track
durations, energy and tempo are the hard-coded placeholder values. -/
def calculateStats (tracks : List Track) : PlaylistStats :=
  { totalDuration := tracks.foldl (fun sum t => sum + t.duration) 0
    averageEnergy := 1 / 2
    averageTempo := 120
    trackCount := tracks.length }

/-- `PlaylistService.createPlaylist`; the generated id and `Date.now()` are
environment inputs and appear as parameters. -/
def createPlaylist (generatedId : String) (now : Nat)
    (name : String) (tracks : List Track) : Playlist :=
  { id := generatedId
    name := name
    tracks := tracks
    createdAt := now
    stats := calculateStats tracks }

/-! ## Shared retry policy (api/ai-filter.ts and api/groq-ai.ts)

    async function retryWithBackoff(fn, maxRetries = 5) {
      let lastError = null;
      for (let attempt = 0; attempt < maxRetries; attempt++) {
        try { return await fn(); } catch (error) {
          lastError = error;
          const isRateLimit = error?.status === 429 || error?.message?.includes(RATE_LIMIT_TEXT);
          if (isRateLimit && attempt < maxRetries - 1) {
            const delay = 500 * Math.pow(2, attempt);
            await sleep(delay); continue;
          }
          throw error;
        }
      }
      throw lastError || new Error(MAX_RETRIES_TEXT);
    }

The call outcome at each attempt is an oracle `fn : Nat → Except JsError α`
and the rate-limit test is a parameter (`api/groq-ai.ts` adds two more
message patterns to its test; the loop itself is identical in both files).
The trace records the result, the list of back-off delays actually slept
in milliseconds, and the number of calls issued. -/

/-- A thrown JS error as inspected by the retry wrapper. -/
structure JsError where
  status : Option Nat
  message : String
deriving DecidableEq

/-- Rate-limit test of `api/ai-filter.ts`:
`status === 429` or a message containing the text `rate limit`. -/
def isRateLimitError (e : JsError) : Bool :=
  e.status == some 429 || containsChars ("rate limit").toList e.message.toList

/-- Observable outcome of one `retryWithBackoff` run. -/
structure RetryTrace (α : Type) where
  result : Except JsError α
  delays : List Nat
  calls : Nat

/-- The retry loop; `fuel` is the number of loop iterations still allowed
(`maxRetries - attempt`), `lastErr` mirrors the `lastError` variable. -/
def retryGo {α : Type} (isRL : JsError → Bool) (fn : Nat → Except JsError α)
    (maxRetries : Nat) : Nat → Nat → Option JsError → RetryTrace α
  | _, 0, lastErr =>
    { result := Except.error (lastErr.getD ⟨none, "Max retries reached"⟩)
      delays := [], calls := 0 }
  | attempt, fuel + 1, _ =>
    match fn attempt with
    | Except.ok a => { result := Except.ok a, delays := [], calls := 1 }
    | Except.error e =>
      if isRL e && decide (attempt < maxRetries - 1) then
        let t := retryGo isRL fn maxRetries (attempt + 1) fuel (some e)
        { result := t.result
          delays := 500 * 2 ^ attempt :: t.delays
          calls := t.calls + 1 }
      else { result := Except.error e, delays := [], calls := 1 }

/-- `retryWithBackoff` (shared by the suggestion and filter endpoints). -/
def retryWithBackoff {α : Type} (isRL : JsError → Bool)
    (fn : Nat → Except JsError α) (maxRetries : Nat) : RetryTrace α :=
  retryGo isRL fn maxRetries 0 maxRetries none

/-! ## ContentFilter backend (`filterRealSongs` in api/groq-ai.ts)

    const content = completion.choices[0]?.message?.content || EMPTY_ARRAY_TEXT;
    const jsonMatch = content.match(/\[[\s\S]*?\]/);
    if (!jsonMatch) return tracks;
    const validIndices = JSON.parse(jsonMatch[0]);
    return validIndices.filter(i => i >= 0 && i < tracks.length).map(i => tracks[i]);

with the whole body inside `try ... catch { return tracks; }`.  The
completion call outcome (after retries) is an oracle; `JSON.parse`, a
JS builtin, is an oracle `jsonParse` returning the integer array or
`none` when it throws (that throw is caught by the enclosing catch). -/

/-- Track shape sent to the Groq filter endpoint. -/
structure SlimTrack where
  title : String
  artist : String
deriving DecidableEq

/-- Characters up to and including the first `]`, if any. -/
def toFirstClose : List Char → Option (List Char)
  | [] => none
  | c :: cs => if c = ']' then some [c] else (toFirstClose cs).map (fun l => c :: l)

/-- The lazy regex `/\[[\s\S]*?\]/`: the slice from the first `[` to the
first `]` after it, or `none` when no such slice exists. -/
def extractFirstArray : List Char → Option (List Char)
  | [] => none
  | c :: cs =>
    if c = '[' then (toFirstClose cs).map (fun l => c :: l)
    else extractFirstArray cs

/-- `filterRealSongs` of api/groq-ai.ts over the completion outcome. -/
def filterRealSongs (jsonParse : List Char → Option (List Int))
    (tracks : List SlimTrack) (completion : Except JsError (List Char)) :
    List SlimTrack :=
  match completion with
  | Except.error _ => tracks
  | Except.ok content =>
    match extractFirstArray content with
    | none => tracks
    | some seg =>
      match jsonParse seg with
      | none => tracks
      | some validIndices =>
        (validIndices.filter
            (fun i => decide (0 ≤ i) && decide (i < (tracks.length : Int)))).map
          (fun i => tracks.getD i.toNat ⟨"", ""⟩)

/-! ## Client-side filter step (`AIService.filterRealSongs`)

    const validTitles = new Set(data.validTracks.map(t => t.title));
    return tracks.filter(track => validTitles.has(track.title));

on a successful backend response; any error (including a non-ok response)
is caught and the original list returned. -/

/-- `AIService.filterRealSongs` applied to a successful backend payload. -/
def clientFilterRealSongs (tracks : List Track)
    (response : Option (List SlimTrack)) : List Track :=
  match response with
  | none => tracks
  | some validTracks =>
    tracks.filter (fun track => validTracks.any (fun v => v.title == track.title))

/-! ## Audio-preference re-ranking (api/ai-filter.ts, YouTube search handler)

    const aHasAudio = /\b(audio|topic)\b/i.test(a.title);
    const aHasVideo = /\b(video|music video|official video|mv)\b/i.test(a.title);
    ... allResults.sort(comparator) ... sortedResults.slice(0, maxResults)

`Array.prototype.sort` is stable, so the sort is embedded as a stable
insertion sort with the comparator; the whole-word regex test is embedded
character by character (`\b` separates a `\w` character from a non-`\w`
one or from the string edge, and the `i` flag lowercases both sides). -/

/-- Raw video result of the search handlers. -/
structure VideoResult where
  videoId : String
  title : String
  channelTitle : String
  thumbnailUrl : String
  duration : String
deriving DecidableEq

/-- True when the character (if any) cannot extend a regex word. -/
def boundaryAt (o : Option Char) : Bool :=
  match o with
  | none => true
  | some c => !isWordChar c

/-- Whole-word occurrence of `tok` at position `i` of `hay`. -/
def wholeWordAt (tok hay : List Char) (i : Nat) : Bool :=
  startsWithChars tok (hay.drop i) &&
  boundaryAt (if i = 0 then none else hay.get? (i - 1)) &&
  boundaryAt (hay.get? (i + tok.length))

/-- Case-insensitive whole-word regex test `\btok\b` (tok given lowercase). -/
def wholeWord (tok : String) (hay : String) : Bool :=
  let h := hay.toList.map Char.toLower
  (List.range (h.length + 1)).any (wholeWordAt tok.toList h)

/-- `/\b(audio|topic)\b/i.test(title)`. -/
def hasAudioSignal (title : String) : Bool :=
  wholeWord ("audio") title || wholeWord ("topic") title

/-- `/\b(video|music video|official video|mv)\b/i.test(title)`. -/
def hasVideoSignal (title : String) : Bool :=
  wholeWord ("video") title || wholeWord ("music video") title ||
  wholeWord ("official video") title || wholeWord ("mv") title

/-- The comparator passed to `sort` by the search handler. -/
def audioCompare (a b : VideoResult) : Int :=
  let aHasAudio := hasAudioSignal a.title
  let bHasAudio := hasAudioSignal b.title
  let aHasVideo := hasVideoSignal a.title
  let bHasVideo := hasVideoSignal b.title
  if aHasAudio && !bHasAudio then -1
  else if !aHasAudio && bHasAudio then 1
  else if !aHasVideo && bHasVideo then -1
  else if aHasVideo && !bHasVideo then 1
  else 0

/-- Stable JS `sort` with `audioCompare` (an element is inserted before the
first element it does not have to follow, exactly the stable order). -/
def sortResults (l : List VideoResult) : List VideoResult :=
  List.insertionSort (fun a b => audioCompare a b ≤ 0) l

/-- `sortedResults.slice(0, maxResults)` — truncation happens after the sort. -/
def rankedResults (l : List VideoResult) (maxResults : Nat) : List VideoResult :=
  (sortResults l).take maxResults

/-- Sort key realized by the comparator: audio-and-not-video titles first,
then audio-and-video, then neither, then video-only. -/
def keyOf (r : VideoResult) : Nat :=
  (if hasAudioSignal r.title then 0 else 2) +
  (if hasVideoSignal r.title then 1 else 0)

/-- Characterization of the stable sort: the four key classes concatenated
in key order, each class in provider order. -/
def bucketed (l : List VideoResult) : List VideoResult :=
  l.filter (fun v => keyOf v == 0) ++
  (l.filter (fun v => keyOf v == 1) ++
  (l.filter (fun v => keyOf v == 2) ++ l.filter (fun v => keyOf v == 3)))

/-! ## Multi-tier search fallback (src/unnamed/part_003)

`searchYouTubeAPI` throws on a missing key, on a fetch rejection, and on a
non-ok status; on an ok response it maps the items (possibly zero of them)
to results.  The handler tries YouTube, then the Piped instances, then the
Invidious instances; a mirror tier walks its instance list and takes the
first successful response. -/

/-- Raw item of a YouTube search response. -/
structure RawSearchItem where
  videoId : String
  title : String
  channelTitle : String
  thumbnailUrl : String
deriving DecidableEq

/-- Outcome of the one `fetch` issued by `searchYouTubeAPI`. -/
inductive FetchOutcome where
  | netError (msg : String)
  | response (ok : Bool) (statusText : String) (items : List RawSearchItem)
deriving DecidableEq

/-- `searchYouTubeAPI` over the credential configuration and fetch outcome. -/
def searchYouTubeAPI (apiKey : Option String) (out : FetchOutcome) :
    Except String (List VideoResult) :=
  match apiKey with
  | none => Except.error ("YouTube API key not configured")
  | some _ =>
    match out with
    | FetchOutcome.netError m => Except.error m
    | FetchOutcome.response ok statusText items =>
      if ok then
        Except.ok (items.map (fun it =>
          ⟨it.videoId, it.title, it.channelTitle, it.thumbnailUrl, "PT0S"⟩))
      else Except.error ("YouTube API failed: " ++ statusText)

/-- Instance loop of `searchPiped` / `searchInvidious`: each entry is the
outcome of one instance (`none` for a network error, timeout or non-ok
status); the first successful instance wins, and the tier fails when every
instance fails. -/
def searchMirror (outcomes : List (Option (List VideoResult)))
    (failMsg : String) : Except String (List VideoResult) :=
  match outcomes with
  | [] => Except.error failMsg
  | some r :: _ => Except.ok r
  | none :: rest => searchMirror rest failMsg

/-- The multi-tier fallback of the search handler; returns the results and
the reported `source` tag. -/
def multiTierSearch (tier1 : Except String (List VideoResult))
    (tier2 tier3 : List (Option (List VideoResult))) :
    Except String (List VideoResult × String) :=
  match tier1 with
  | Except.ok r => Except.ok (r, "youtube")
  | Except.error _ =>
    match searchMirror tier2 ("All Piped instances failed") with
    | Except.ok r => Except.ok (r, "piped")
    | Except.error _ =>
      match searchMirror tier3 ("All Invidious instances failed") with
      | Except.ok r => Except.ok (r, "invidious")
      | Except.error m => Except.error m

/-! ## PlaylistGenerator.generateFromPrompt (src/unnamed/part_011)

The three collaborator calls are oracles: `suggest` is the outcome of
`aiService.suggestSongs(prompt)`, `search s` the outcome of
`searchService.search(artist + " " + title + " audio", 1)` for suggestion
`s`, and `filterAI` the (total, fail-open) `aiService.filterRealSongs`.
The generated playlist name, id and `Date.now()` are inputs.  Each search
task catches its own failure and yields `null`; `Promise.all` preserves
suggestion order, and nulls are filtered out. -/

/-- Terminal errors of `generateFromPrompt` (the two thrown messages) plus
rethrown upstream failures. -/
inductive GenError where
  | noSuggestions
  | noTracksResolved
  | upstream (msg : String)
deriving DecidableEq

/-- One resolution task: failure or an empty result list contributes
nothing, otherwise the first result becomes a `Track`. -/
def resolveSuggestion (search : SongSuggestion → Except String (List SearchResult))
    (s : SongSuggestion) : Option Track :=
  match search s with
  | Except.error _ => none
  | Except.ok [] => none
  | Except.ok (r :: _) =>
    some { id := r.videoId, title := r.title, artist := r.channelTitle
           duration := parseDuration r.duration
           thumbnailUrl := r.thumbnailUrl, youtubeId := r.videoId }

/-- `PlaylistGenerator.generateFromPrompt`. -/
def generateFromPrompt (suggest : Except String (List SongSuggestion))
    (search : SongSuggestion → Except String (List SearchResult))
    (filterAI : List Track → List Track)
    (generatedId : String) (now : Nat) (name : String) :
    Except GenError Playlist :=
  match suggest with
  | Except.error m => Except.error (GenError.upstream m)
  | Except.ok suggestions =>
    if suggestions.isEmpty then Except.error GenError.noSuggestions
    else
      let tracks := suggestions.filterMap (resolveSuggestion search)
      if tracks.isEmpty then Except.error GenError.noTracksResolved
      else
        let filteredTracks := filterAI tracks
        let uniqueTracks := removeDuplicates filteredTracks
        Except.ok (createPlaylist generatedId now name uniqueTracks)

/-! ## Lemmas and claim theorems -/

theorem foldl_add_duration (l : List Track) :
    ∀ n : Nat, l.foldl (fun sum t => sum + t.duration) n
      = n + (l.map (fun t => t.duration)).sum := by
  induction l with
  | nil => intro n; simp
  | cons t ts ih => intro n; simp [ih, Nat.add_assoc]

/-- C9: for every track list, the assembled playlist has
`stats.trackCount` equal to the length of its track sequence,
`stats.totalDuration` equal to the exact sum of the member durations, and
`averageEnergy` and `averageTempo` are the fixed placeholder constants
`0.5` and `120`, identical for every input (not computed from the tracks). -/
theorem playlist_stats_exact (generatedId : String) (now : Nat)
    (name : String) (tracks : List Track) :
    (createPlaylist generatedId now name tracks).stats.trackCount
      = (createPlaylist generatedId now name tracks).tracks.length ∧
    (createPlaylist generatedId now name tracks).stats.totalDuration
      = (tracks.map (fun t => t.duration)).sum ∧
    (createPlaylist generatedId now name tracks).stats.averageEnergy = 1 / 2 ∧
    (createPlaylist generatedId now name tracks).stats.averageTempo = 120 ∧
    (∀ other : List Track,
      (calculateStats other).averageEnergy = (calculateStats tracks).averageEnergy ∧
      (calculateStats other).averageTempo = (calculateStats tracks).averageTempo) := by
  refine ⟨rfl, ?_, rfl, rfl, fun other => ⟨rfl, rfl⟩⟩
  simpa [createPlaylist, calculateStats] using foldl_add_duration tracks 0

/-- C3: the backend content filter fails open — whenever the completion
call fails (upstream unreachable or retries exhausted), or the response
contains no array literal, or the extracted literal does not parse, the
filter returns the full input track list unchanged. -/
theorem filter_fail_open (jsonParse : List Char → Option (List Int))
    (tracks : List SlimTrack) :
    (∀ e, filterRealSongs jsonParse tracks (Except.error e) = tracks) ∧
    (∀ content, extractFirstArray content = none →
      filterRealSongs jsonParse tracks (Except.ok content) = tracks) ∧
    (∀ content seg, extractFirstArray content = some seg → jsonParse seg = none →
      filterRealSongs jsonParse tracks (Except.ok content) = tracks) := by
  refine ⟨fun e => rfl, fun content h => ?_, fun content seg h1 h2 => ?_⟩
  · simp [filterRealSongs, h]
  · simp [filterRealSongs, h1, h2]

/-- C3 witness: concrete fail-open runs — a thrown upstream error, a prose
response with no array literal, and an unparseable literal all return the
input list unchanged. -/
theorem filter_fail_open_witness :
    filterRealSongs (fun _ => some [0]) [⟨"A", "X"⟩]
      (Except.error ⟨some 500, "upstream down"⟩) = [⟨"A", "X"⟩] ∧
    filterRealSongs (fun _ => some [0]) [⟨"A", "X"⟩]
      (Except.ok ("model produced plain prose").toList) = [⟨"A", "X"⟩] ∧
    filterRealSongs (fun _ => none) [⟨"A", "X"⟩]
      (Except.ok ("[junk]").toList) = [⟨"A", "X"⟩] :=
  ⟨(filter_fail_open _ _).1 _,
   (filter_fail_open _ _).2.1 _ (by decide),
   (filter_fail_open _ _).2.2 _ ("[junk]").toList (by decide) rfl⟩

/-- C10: the client-side filter step keeps exactly the input tracks, in
input order, whose title equals the title of some track kept by the
backend; its output is an order-preserving subsequence of the input, is
invariant under reordering of the backend response, and two input tracks
with equal titles are kept or dropped together. -/
theorem client_filter_by_title (tracks : List Track)
    (validTracks : List SlimTrack) :
    clientFilterRealSongs tracks (some validTracks)
      = tracks.filter (fun track => validTracks.any (fun v => v.title == track.title)) ∧
    List.Sublist (clientFilterRealSongs tracks (some validTracks)) tracks ∧
    (∀ t, t ∈ clientFilterRealSongs tracks (some validTracks) ↔
      t ∈ tracks ∧ ∃ v ∈ validTracks, v.title = t.title) ∧
    (∀ reordered, List.Perm validTracks reordered →
      clientFilterRealSongs tracks (some reordered)
        = clientFilterRealSongs tracks (some validTracks)) ∧
    (∀ t1 t2, t1 ∈ tracks → t2 ∈ tracks → t1.title = t2.title →
      (t1 ∈ clientFilterRealSongs tracks (some validTracks) ↔
       t2 ∈ clientFilterRealSongs tracks (some validTracks))) := by
  have hmem : ∀ t, t ∈ clientFilterRealSongs tracks (some validTracks) ↔
      t ∈ tracks ∧ ∃ v ∈ validTracks, v.title = t.title := by
    intro t
    simp only [clientFilterRealSongs, List.mem_filter, List.any_eq_true,
      beq_iff_eq]
  refine ⟨rfl, List.filter_sublist _, hmem, fun reordered hperm => ?_, ?_⟩
  · apply List.filter_congr
    intro t _
    rw [← Bool.coe_iff_coe]
    simp only [List.any_eq_true]
    constructor
    · rintro ⟨v, hv, hvt⟩; exact ⟨v, hperm.mem_iff.mpr hv, hvt⟩
    · rintro ⟨v, hv, hvt⟩; exact ⟨v, hperm.mem_iff.mp hv, hvt⟩
  · intro t1 t2 h1 h2 htitle
    rw [hmem, hmem]
    constructor
    · rintro ⟨-, v, hv, hvt⟩; exact ⟨h2, v, hv, htitle ▸ hvt⟩
    · rintro ⟨-, v, hv, hvt⟩; exact ⟨h1, v, hv, htitle.symm ▸ hvt⟩

/-- C10 witness: a concrete run — the backend reversed the kept tracks,
the client output is still the original order, and both duplicate-titled
input tracks are kept. -/
theorem client_filter_by_title_witness :
    clientFilterRealSongs
        [⟨"1", "Song A", "X", 10, "u", "1"⟩, ⟨"2", "Song B", "Y", 20, "u", "2"⟩,
         ⟨"3", "Song A", "Z", 30, "u", "3"⟩]
        (some [⟨"Song A", "X"⟩])
      = clientFilterRealSongs
        [⟨"1", "Song A", "X", 10, "u", "1"⟩, ⟨"2", "Song B", "Y", 20, "u", "2"⟩,
         ⟨"3", "Song A", "Z", 30, "u", "3"⟩]
        (some [⟨"Song A", "X"⟩]) ∧
    (⟨"3", "Song A", "Z", 30, "u", "3"⟩ : Track) ∈
      clientFilterRealSongs
        [⟨"1", "Song A", "X", 10, "u", "1"⟩, ⟨"2", "Song B", "Y", 20, "u", "2"⟩,
         ⟨"3", "Song A", "Z", 30, "u", "3"⟩]
        (some [⟨"Song A", "X"⟩]) :=
  ⟨(client_filter_by_title _ [⟨"Song A", "X"⟩]).2.2.2.1 _ (List.Perm.refl _),
   ((client_filter_by_title _ [⟨"Song A", "X"⟩]).2.2.1 _).mpr
     ⟨by decide, ⟨"Song A", "X"⟩, by decide, rfl⟩⟩

/-- C7: a zero-hit but successful Tier-1 response yields a successful
empty result from the `youtube` source and never reaches the mirror tiers;
more generally any successful Tier-1 response is returned as is, and
Tier 1 fails (triggering fallback) exactly when the credential is missing,
the fetch itself fails, or the HTTP status is not ok. -/
theorem tier1_empty_no_fallback (k statusText : String)
    (tier2 tier3 : List (Option (List VideoResult)))
    (apiKey : Option String) (out : FetchOutcome) :
    multiTierSearch (searchYouTubeAPI (some k) (FetchOutcome.response true statusText []))
        tier2 tier3 = Except.ok ([], "youtube") ∧
    (∀ results, searchYouTubeAPI apiKey out = Except.ok results →
      multiTierSearch (searchYouTubeAPI apiKey out) tier2 tier3
        = Except.ok (results, "youtube")) ∧
    ((∃ m, searchYouTubeAPI apiKey out = Except.error m) ↔
      apiKey = none ∨ (∃ m, out = FetchOutcome.netError m) ∨
      (∃ st items, out = FetchOutcome.response false st items)) := by
  refine ⟨rfl, fun results h => ?_, ?_⟩
  · rw [h]; rfl
  · cases apiKey with
    | none => simp [searchYouTubeAPI]
    | some key =>
      cases out with
      | netError m => simp [searchYouTubeAPI]
      | response ok st items =>
        cases ok <;> simp [searchYouTubeAPI]

/-- C7 witness: with both mirror tiers configured to succeed, a Tier-1
success and a Tier-1 missing-credential failure behave as stated. -/
theorem tier1_empty_no_fallback_witness :
    multiTierSearch
        (searchYouTubeAPI (some ("key")) (FetchOutcome.response true ("OK")
          [⟨"v1", "Title", "Chan", "thumb"⟩]))
        [some []] [some []]
      = Except.ok ([⟨"v1", "Title", "Chan", "thumb", "PT0S"⟩], "youtube") ∧
    (∃ m, searchYouTubeAPI none (FetchOutcome.response true ("OK") [])
      = Except.error m) :=
  ⟨(tier1_empty_no_fallback ("key") ("OK") [some []] [some []]
      (some ("key")) (FetchOutcome.response true ("OK") [⟨"v1", "Title", "Chan", "thumb"⟩])).2.1
      _ rfl,
   (tier1_empty_no_fallback ("key") ("OK") [] []
      none (FetchOutcome.response true ("OK") [])).2.2.mpr (Or.inl rfl)⟩

/-- C1: the orchestrator failure policy — upstream suggestion failures are
rethrown, zero suggestions fail with the terminal no-suggestions error, a
failed or empty per-suggestion resolution contributes nothing, zero
resolved tracks fail with the terminal no-tracks-resolved error, and a
playlist is returned only when the whole pipeline ran, so no terminal
failure ever surfaces a playlist. -/
theorem generate_failure_policy (suggest : Except String (List SongSuggestion))
    (search : SongSuggestion → Except String (List SearchResult))
    (filterAI : List Track → List Track)
    (generatedId : String) (now : Nat) (name : String) :
    (∀ m, suggest = Except.error m →
      generateFromPrompt suggest search filterAI generatedId now name
        = Except.error (GenError.upstream m)) ∧
    (suggest = Except.ok [] →
      generateFromPrompt suggest search filterAI generatedId now name
        = Except.error GenError.noSuggestions) ∧
    (∀ s m, search s = Except.error m → resolveSuggestion search s = none) ∧
    (∀ s, search s = Except.ok [] → resolveSuggestion search s = none) ∧
    (∀ l, suggest = Except.ok l → l ≠ [] →
      l.filterMap (resolveSuggestion search) = [] →
      generateFromPrompt suggest search filterAI generatedId now name
        = Except.error GenError.noTracksResolved) ∧
    (∀ p, generateFromPrompt suggest search filterAI generatedId now name
        = Except.ok p →
      ∃ l, suggest = Except.ok l ∧ l ≠ [] ∧
        l.filterMap (resolveSuggestion search) ≠ [] ∧
        p = createPlaylist generatedId now name
          (removeDuplicates (filterAI (l.filterMap (resolveSuggestion search))))) := by
  refine ⟨fun m h => by rw [h]; rfl, fun h => by rw [h]; rfl,
    fun s m h => by simp [resolveSuggestion, h],
    fun s h => by simp [resolveSuggestion, h],
    fun l h hne hfm => ?_, fun p hp => ?_⟩
  · rw [h]
    simp only [generateFromPrompt, hfm]
    rw [if_neg (by simp [hne])]
    rfl
  · cases suggest with
    | error m => exact absurd hp (by simp [generateFromPrompt])
    | ok l =>
      refine ⟨l, rfl, ?_⟩
      simp only [generateFromPrompt] at hp
      by_cases hl : l.isEmpty
      · rw [if_pos hl] at hp; exact absurd hp (by simp)
      · rw [if_neg hl] at hp
        by_cases ht : (l.filterMap (resolveSuggestion search)).isEmpty
        · rw [if_pos ht] at hp; exact absurd hp (by simp)
        · rw [if_neg ht] at hp
          refine ⟨by simpa [List.isEmpty_iff] using hl,
            by simpa [List.isEmpty_iff] using ht, ?_⟩
          cases hp
          rfl

/-- C1 witness: concrete runs hitting the zero-suggestion failure, the
zero-resolved failure (with the per-suggestion failure swallowed), the
upstream rethrow, and a successful end-to-end generation. -/
theorem generate_failure_policy_witness :
    generateFromPrompt (Except.ok []) (fun _ => Except.ok []) (fun ts => ts)
        "p1" 0 ("Name") = Except.error GenError.noSuggestions ∧
    generateFromPrompt (Except.ok [⟨"T", "A"⟩]) (fun _ => Except.error ("search down"))
        (fun ts => ts) ("p1") 0 ("Name") = Except.error GenError.noTracksResolved ∧
    generateFromPrompt (Except.error ("ai down")) (fun _ => Except.ok [])
        (fun ts => ts) ("p1") 0 ("Name") = Except.error (GenError.upstream ("ai down")) :=
  ⟨(generate_failure_policy (Except.ok []) (fun _ => Except.ok []) (fun ts => ts)
      "p1" 0 ("Name")).2.1 rfl,
   (generate_failure_policy (Except.ok [⟨"T", "A"⟩])
      (fun _ => Except.error ("search down")) (fun ts => ts) ("p1") 0 ("Name")).2.2.2.2.1
      [⟨"T", "A"⟩] rfl (by decide) rfl,
   (generate_failure_policy (Except.error ("ai down")) (fun _ => Except.ok [])
      (fun ts => ts) ("p1") 0 ("Name")).1 ("ai down") rfl⟩

theorem takeWhile_append_not (p : Char → Bool) (ds rest : List Char) (v : Char)
    (hd : ∀ c ∈ ds, p c = true) (hv : p v = false) :
    (ds ++ v :: rest).takeWhile p = ds := by
  induction ds with
  | nil =>
    simp only [List.nil_append]
    exact List.takeWhile_cons_of_neg (by simp [hv])
  | cons c cs ih =>
    have hc : p c = true := hd c (List.mem_cons_self c cs)
    simp only [List.cons_append, List.takeWhile_cons_of_pos hc]
    rw [ih (fun x hx => hd x (List.mem_cons_of_mem c hx))]

theorem grabComponent_hit (u : Char) (ds rest : List Char) (hne : ds ≠ [])
    (hd : ∀ c ∈ ds, c.isDigit = true) (hu : u.isDigit = false) :
    grabComponent u (ds ++ u :: rest) = (digitsToNat ds, rest) := by
  unfold grabComponent
  rw [takeWhile_append_not _ _ _ _ hd hu]
  rw [List.isEmpty_eq_false.mpr hne, List.drop_left]
  simp

theorem grabComponent_wrong (u v : Char) (ds rest : List Char)
    (hd : ∀ c ∈ ds, c.isDigit = true) (hv : v.isDigit = false) (hvu : v ≠ u) :
    grabComponent u (ds ++ v :: rest) = (0, ds ++ v :: rest) := by
  unfold grabComponent
  rw [takeWhile_append_not _ _ _ _ hd hv]
  cases ds with
  | nil => rfl
  | cons c cs =>
    rw [List.isEmpty_eq_false.mpr (by simp), List.drop_left]
    simp [hvu]

theorem afterPT_cons (rest : List Char) : afterPT ('P' :: 'T' :: rest) = some rest :=
  rfl

/-- C8 (amended): the parsing regex is unanchored, so `parseDuration`
parses from the first occurrence of `PT` — every string of the exact shape
`PT(\d+H)?(\d+M)?(\d+S)?` parses to
`hours * 3600 + minutes * 60 + seconds` with absent groups contributing 0;
every string in which the regex finds no match (no occurrence of `PT`)
parses to 0; and the parsed duration is never negative. -/
theorem parse_duration_pattern :
    (∀ oh om os : Option (List Char),
      (∀ c ∈ oh.getD [], c.isDigit = true) → oh ≠ some [] →
      (∀ c ∈ om.getD [], c.isDigit = true) → om ≠ some [] →
      (∀ c ∈ os.getD [], c.isDigit = true) → os ≠ some [] →
      parseDuration (durationLiteral oh om os).asString
        = optVal oh * 3600 + optVal om * 60 + optVal os) ∧
    (∀ s : String, afterPT s.toList = none → parseDuration s = 0) ∧
    (∀ s : String, 0 ≤ parseDuration s) := by
  refine ⟨?_, ?_, fun s => Nat.zero_le _⟩
  · intro oh om os hh hhne hm hmne hs hsne
    have hH : ('H' : Char).isDigit = false := by decide
    have hM : ('M' : Char).isDigit = false := by decide
    have hS : ('S' : Char).isDigit = false := by decide
    rw [parseDuration, List.toList_asString]
    rcases oh with _ | dh <;> rcases om with _ | dm <;> rcases os with _ | dsl <;>
      simp only [durationLiteral, optComp, List.nil_append, List.append_nil,
        List.cons_append, List.append_assoc, List.singleton_append,
        parseDurationChars, afterPT_cons, optVal]
    · rfl
    · rw [grabComponent_wrong 'H' 'S' dsl [] (by simpa using hs) hS (by decide)]
      rw [grabComponent_wrong 'M' 'S' dsl [] (by simpa using hs) hS (by decide)]
      rw [grabComponent_hit 'S' dsl [] (by simpa using hsne) (by simpa using hs) hS]
    · rw [grabComponent_wrong 'H' 'M' dm [] (by simpa using hm) hM (by decide)]
      rw [grabComponent_hit 'M' dm [] (by simpa using hmne) (by simpa using hm) hM]
      rfl
    · rw [grabComponent_wrong 'H' 'M' dm (dsl ++ ['S']) (by simpa using hm) hM
        (by decide)]
      rw [grabComponent_hit 'M' dm (dsl ++ ['S']) (by simpa using hmne)
        (by simpa using hm) hM]
      rw [show (dsl ++ ['S'] : List Char) = dsl ++ 'S' :: [] from rfl]
      rw [grabComponent_hit 'S' dsl [] (by simpa using hsne) (by simpa using hs) hS]
    · rw [grabComponent_hit 'H' dh [] (by simpa using hhne) (by simpa using hh) hH]
      rfl
    · rw [grabComponent_hit 'H' dh (dsl ++ ['S']) (by simpa using hhne)
        (by simpa using hh) hH]
      rw [show (dsl ++ ['S'] : List Char) = dsl ++ 'S' :: [] from rfl]
      rw [grabComponent_wrong 'M' 'S' dsl [] (by simpa using hs) hS (by decide)]
      rw [grabComponent_hit 'S' dsl [] (by simpa using hsne) (by simpa using hs) hS]
    · rw [grabComponent_hit 'H' dh (dm ++ ['M']) (by simpa using hhne)
        (by simpa using hh) hH]
      rw [show (dm ++ ['M'] : List Char) = dm ++ 'M' :: [] from rfl]
      rw [grabComponent_hit 'M' dm [] (by simpa using hmne) (by simpa using hm) hM]
      rfl
    · rw [grabComponent_hit 'H' dh (dm ++ 'M' :: (dsl ++ ['S'])) (by simpa using hhne)
        (by simpa using hh) hH]
      rw [grabComponent_hit 'M' dm (dsl ++ ['S']) (by simpa using hmne)
        (by simpa using hm) hM]
      rw [show (dsl ++ ['S'] : List Char) = dsl ++ 'S' :: [] from rfl]
      rw [grabComponent_hit 'S' dsl [] (by simpa using hsne) (by simpa using hs) hS]
  · intro s h
    rw [parseDuration, parseDurationChars, h]

/-- C8 witness: `PT3M45S` parses to 225 seconds and a string with no `PT`
parses to 0. -/
theorem parse_duration_pattern_witness :
    parseDuration (durationLiteral none (some ['3']) (some ['4', '5'])).asString
      = 225 ∧
    parseDuration ("nonsense") = 0 :=
  ⟨(parse_duration_pattern.1 none (some ['3']) (some ['4', '5'])
      (by decide) (by decide) (by decide) (by decide) (by decide) (by decide)).trans
      (by decide),
   parse_duration_pattern.2.1 ("nonsense") (by decide)⟩

theorem durationLiteral_getLast_S (oh om : Option (List Char)) (dsl : List Char) :
    (durationLiteral oh om (some dsl)).getLast? = some 'S' := by
  have hsplit : durationLiteral oh om (some dsl)
      = ('P' :: 'T' :: (optComp 'H' oh ++ optComp 'M' om ++ dsl)) ++ ['S'] := by
    simp [durationLiteral, optComp, List.append_assoc]
  rw [hsplit, List.getLast?_concat]

theorem durationLiteral_getLast_M (oh : Option (List Char)) (dm : List Char) :
    (durationLiteral oh (some dm) none).getLast? = some 'M' := by
  have hsplit : durationLiteral oh (some dm) none
      = ('P' :: 'T' :: (optComp 'H' oh ++ dm)) ++ ['M'] := by
    simp [durationLiteral, optComp, List.append_assoc]
  rw [hsplit, List.getLast?_concat]

theorem durationLiteral_getLast_H (dh : List Char) :
    (durationLiteral (some dh) none none).getLast? = some 'H' := by
  have hsplit : durationLiteral (some dh) none none
      = ('P' :: 'T' :: dh) ++ ['H'] := by
    simp [durationLiteral, optComp]
  rw [hsplit, List.getLast?_concat]

theorem not_pattern_xPT3M45S (oh om os : Option (List Char)) :
    ("xPT3M45S").toList ≠ durationLiteral oh om os := by
  intro h
  have hhead : ("xPT3M45S").toList.head? = some 'P' := by
    rw [h]; rfl
  exact absurd hhead (by decide)

theorem not_pattern_PT3M45Sxx (oh om os : Option (List Char)) :
    ("PT3M45Sxx").toList ≠ durationLiteral oh om os := by
  intro h
  have hlast := congrArg List.getLast? h
  rcases os with _ | dsl
  · rcases om with _ | dm
    · rcases oh with _ | dh
      · exact absurd h (by decide)
      · rw [durationLiteral_getLast_H] at hlast
        exact absurd hlast (by decide)
    · rw [durationLiteral_getLast_M] at hlast
      exact absurd hlast (by decide)
  · rw [durationLiteral_getLast_S] at hlast
    exact absurd hlast (by decide)

/-- C8 counterexample: the parsing regex is unanchored, so strings that do
not match the whole pattern `PT(\d+H)?(\d+M)?(\d+S)?` — one with a prefix
before `PT`, one with trailing text after the seconds group (the
`not_pattern` lemmas show neither equals any rendering of the pattern) —
still parse to 225 rather than the 0 the claim requires for every
non-matching string. -/
theorem parse_duration_counterexample :
    parseDuration ("xPT3M45S") = 225 ∧
    parseDuration ("PT3M45Sxx") = 225 ∧
    parseDuration ("xPT3M45S") ≠ 0 :=
  ⟨by decide, by decide, by decide⟩

theorem retryGo_calls_le {α : Type} (isRL : JsError → Bool)
    (fn : Nat → Except JsError α) (maxRetries : Nat) :
    ∀ fuel attempt lastErr,
      (retryGo isRL fn maxRetries attempt fuel lastErr).calls ≤ fuel := by
  intro fuel
  induction fuel with
  | zero => intro attempt lastErr; simp [retryGo]
  | succ f ih =>
    intro attempt lastErr
    simp only [retryGo]
    cases hfn : fn attempt with
    | ok a => simp
    | error e =>
      by_cases hc : (isRL e && decide (attempt < maxRetries - 1)) = true
      · simp only [hc, if_true]
        have := ih (attempt + 1) (some e)
        omega
      · simp [hc]

/-- C2: the shared retry policy — a non-rate-limited error aborts after the
first call with no delay; a call rate-limited on the first four attempts
that succeeds on the fifth returns that fifth response after exactly the
delays 500, 1000, 2000 and 4000 ms (total 7500 ms); a fifth consecutive
rate-limit error is surfaced as the last error with the retry budget
exhausted after those same delays; and no run ever issues more than five
calls. -/
theorem retry_policy {α : Type} (isRL : JsError → Bool)
    (fn : Nat → Except JsError α) :
    (∀ e, fn 0 = Except.error e → isRL e = false →
      retryWithBackoff isRL fn 5 = ⟨Except.error e, [], 1⟩) ∧
    (∀ es : Nat → JsError, (∀ i, isRL (es i) = true) →
      (∀ i, i < 4 → fn i = Except.error (es i)) →
      ((∀ r, fn 4 = Except.ok r →
        retryWithBackoff isRL fn 5
          = ⟨Except.ok r, [500, 1000, 2000, 4000], 5⟩ ∧
        (retryWithBackoff isRL fn 5).delays.sum = 7500) ∧
       (fn 4 = Except.error (es 4) →
        retryWithBackoff isRL fn 5
          = ⟨Except.error (es 4), [500, 1000, 2000, 4000], 5⟩))) ∧
    (retryWithBackoff isRL fn 5).calls ≤ 5 := by
  refine ⟨fun e hfn hrl => ?_, fun es hrl h4 => ?_,
    retryGo_calls_le isRL fn 5 5 0 none⟩
  · simp [retryWithBackoff, retryGo, hfn, hrl]
  · have h0 := h4 0 (by omega)
    have h1 := h4 1 (by omega)
    have h2 := h4 2 (by omega)
    have h3 := h4 3 (by omega)
    refine ⟨fun r h5 => ?_, fun h5 => ?_⟩
    · have hres : retryWithBackoff isRL fn 5
          = ⟨Except.ok r, [500, 1000, 2000, 4000], 5⟩ := by
        simp [retryWithBackoff, retryGo, h0, h1, h2, h3, h5, hrl]
      exact ⟨hres, by rw [hres]; rfl⟩
    · simp [retryWithBackoff, retryGo, h0, h1, h2, h3, h5, hrl]

/-- C2 witness: a concrete function that is rate-limited (HTTP 429) on
attempts 0 to 3 and succeeds on attempt 4 returns the fifth response after
delays 500, 1000, 2000, 4000 (total 7500 ms) in exactly 5 calls, and a
concrete non-rate-limit error aborts immediately. -/
theorem retry_policy_witness :
    retryWithBackoff isRateLimitError
        (fun i => if i < 4 then Except.error ⟨some 429, "Too Many Requests"⟩
                  else Except.ok 7) 5
      = ⟨Except.ok 7, [500, 1000, 2000, 4000], 5⟩ ∧
    (retryWithBackoff isRateLimitError
        (fun i => if i < 4 then Except.error ⟨some 429, "Too Many Requests"⟩
                  else Except.ok 7) 5).delays.sum = 7500 ∧
    retryWithBackoff isRateLimitError
        (fun _ => (Except.error ⟨some 500, "internal error"⟩ : Except JsError Nat)) 5
      = ⟨Except.error ⟨some 500, "internal error"⟩, [], 1⟩ := by
  refine ⟨?_, ?_, ?_⟩
  · exact ((retry_policy isRateLimitError _).2.1
      (fun _ => ⟨some 429, "Too Many Requests"⟩) (fun _ => rfl)
      (fun i hi => by simp [hi])).1 7 (by simp) |>.1
  · exact ((retry_policy isRateLimitError _).2.1
      (fun _ => ⟨some 429, "Too Many Requests"⟩) (fun _ => rfl)
      (fun i hi => by simp [hi])).1 7 (by simp) |>.2
  · exact (retry_policy isRateLimitError _).1 ⟨some 500, "internal error"⟩
      rfl (by decide)

theorem contains_iff_mem (l : List String) (s : String) :
    l.contains s = true ↔ s ∈ l := by
  simp

theorem dedupGo_eq_spec :
    ∀ (ts : List Track) (seen : List String) (kept : List Track),
      (∀ s : String, seen.contains s = true ↔
        ∃ u ∈ kept, s = u.youtubeId ∨ s = normalizeTitle u.title) →
      dedupGo seen ts = dedupeSpec kept ts := by
  intro ts
  induction ts with
  | nil => intro seen kept hinv; rfl
  | cons t ts ih =>
    intro seen kept hinv
    by_cases hg : ∃ u ∈ kept, collides t u = true
    · have hgb : kept.any (fun u => collides t u) = true := by
        obtain ⟨u, hu, h⟩ := hg
        exact List.any_eq_true.mpr ⟨u, hu, h⟩
      obtain ⟨u, hu, hcol⟩ := hg
      simp only [collides, Bool.or_eq_true, beq_iff_eq] at hcol
      have hskip : dedupGo seen (t :: ts) = dedupGo seen ts := by
        simp only [dedupGo]
        rcases hcol with ((h | h) | h) | h
        · rw [if_pos ((hinv _).mpr ⟨u, hu, Or.inl h⟩)]
        · rw [if_pos ((hinv _).mpr ⟨u, hu, Or.inr h⟩)]
        · by_cases h1 : seen.contains t.youtubeId = true
          · rw [if_pos h1]
          · rw [if_neg h1, if_pos ((hinv _).mpr ⟨u, hu, Or.inl h⟩)]
        · by_cases h1 : seen.contains t.youtubeId = true
          · rw [if_pos h1]
          · rw [if_neg h1, if_pos ((hinv _).mpr ⟨u, hu, Or.inr h⟩)]
      rw [hskip]
      simp only [dedupeSpec]
      rw [if_pos hgb]
      exact ih seen kept hinv
    · have hgb : ¬ kept.any (fun u => collides t u) = true := by
        intro hc
        obtain ⟨u, hu, h⟩ := List.any_eq_true.mp hc
        exact hg ⟨u, hu, h⟩
      have h1 : ¬ seen.contains t.youtubeId = true := by
        intro hc
        obtain ⟨u, hu, hor⟩ := (hinv _).mp hc
        refine hg ⟨u, hu, ?_⟩
        simp only [collides, Bool.or_eq_true, beq_iff_eq]
        exact Or.inl (Or.inl hor)
      have h2 : ¬ seen.contains (normalizeTitle t.title) = true := by
        intro hc
        obtain ⟨u, hu, hor⟩ := (hinv _).mp hc
        refine hg ⟨u, hu, ?_⟩
        simp only [collides, Bool.or_eq_true, beq_iff_eq]
        rcases hor with h | h
        · exact Or.inl (Or.inr h)
        · exact Or.inr h
      simp only [dedupGo, dedupeSpec]
      rw [if_neg h1, if_neg h2, if_neg hgb]
      congr 1
      apply ih
      intro s
      constructor
      · intro hc
        have hc2 : s = normalizeTitle t.title ∨ s = t.youtubeId ∨ s ∈ seen := by
          simpa [List.contains_cons, Bool.or_eq_true, beq_iff_eq,
            or_assoc, contains_iff_mem] using hc
        rcases hc2 with h | h | h
        · exact ⟨t, by simp, Or.inr h⟩
        · exact ⟨t, by simp, Or.inl h⟩
        · obtain ⟨u, hu, hor⟩ := (hinv s).mp ((contains_iff_mem seen s).mpr h)
          exact ⟨u, by simp [hu], hor⟩
      · rintro ⟨u, hu, hor⟩
        rcases List.mem_append.mp hu with hu | hu
        · have hs : s ∈ seen :=
            (contains_iff_mem seen s).mp ((hinv s).mpr ⟨u, hu, hor⟩)
          simp [List.contains_cons, contains_iff_mem, hs]
        · have hut : u = t := by simpa using hu
          subst hut
          rcases hor with h | h <;> simp [List.contains_cons, h]

theorem dedupGo_sublist : ∀ (ts : List Track) (seen : List String),
    List.Sublist (dedupGo seen ts) ts := by
  intro ts
  induction ts with
  | nil => intro seen; exact List.Sublist.refl _
  | cons t ts ih =>
    intro seen
    simp only [dedupGo]
    split_ifs with hc1 hc2
    · exact (ih seen).cons t
    · exact (ih seen).cons t
    · exact (ih _).cons₂ t

theorem dedupGo_id_not_seen : ∀ (ts : List Track) (seen : List String),
    ∀ u ∈ dedupGo seen ts, ¬ seen.contains u.youtubeId = true := by
  intro ts
  induction ts with
  | nil => intro seen u hu; simp [dedupGo] at hu
  | cons t ts ih =>
    intro seen u hu
    simp only [dedupGo] at hu
    split_ifs at hu with hc1 hc2
    · exact ih seen u hu
    · exact ih seen u hu
    · rcases List.mem_cons.mp hu with h | h
      · subst h; exact hc1
      · have := ih _ u h
        intro hcon
        have hmem : u.youtubeId ∈ seen := (contains_iff_mem seen _).mp hcon
        exact this (by simp [List.contains_cons, contains_iff_mem, hmem])

theorem dedupGo_pairwise_ids : ∀ (ts : List Track) (seen : List String),
    (dedupGo seen ts).Pairwise (fun a b => a.youtubeId ≠ b.youtubeId) := by
  intro ts
  induction ts with
  | nil => intro seen; simp [dedupGo]
  | cons t ts ih =>
    intro seen
    simp only [dedupGo]
    split_ifs with hc1 hc2
    · exact ih seen
    · exact ih seen
    · refine List.Pairwise.cons ?_ (ih _)
      intro b hb heq
      have := dedupGo_id_not_seen ts _ b hb
      exact this (by simp [List.contains_cons, heq])

/-- C5 (amended): `removeDuplicates` is characterized by the collision
relation the shared seen set actually enforces — a track is dropped when
its id or normalized title equals the id or normalized title of an earlier
kept track (`dedupeSpec` with `collides`); the output is an
order-preserving subsequence of the input with the first occurrence of
each collision class kept, and no two output tracks share an id. -/
theorem dedupe_characterization (tracks : List Track) :
    removeDuplicates tracks = dedupeSpec [] tracks ∧
    List.Sublist (removeDuplicates tracks) tracks ∧
    (removeDuplicates tracks).Pairwise (fun a b => a.youtubeId ≠ b.youtubeId) :=
  ⟨dedupGo_eq_spec tracks [] [] (by simp),
   dedupGo_sublist tracks [],
   dedupGo_pairwise_ids tracks []⟩

/-- C5 counterexample: the claimed collision relation (same id or equal
normalized titles) is not the one enforced — here the second track shares
neither id nor normalized title with the first, yet it is dropped because
its id equals the normalized title of the first track (both keys live in one
shared set). -/
theorem dedupe_counterexample :
    removeDuplicates
        [⟨"x", "abc", "a1", 1, "u", "x"⟩, ⟨"abc", "def", "a2", 2, "u", "abc"⟩]
      = [⟨"x", "abc", "a1", 1, "u", "x"⟩] ∧
    (⟨"x", "abc", "a1", 1, "u", "x"⟩ : Track).youtubeId
      ≠ (⟨"abc", "def", "a2", 2, "u", "abc"⟩ : Track).youtubeId ∧
    normalizeTitle (⟨"x", "abc", "a1", 1, "u", "x"⟩ : Track).title
      ≠ normalizeTitle (⟨"abc", "def", "a2", 2, "u", "abc"⟩ : Track).title := by
  refine ⟨by decide, by decide, by decide⟩

theorem mapGetD_sublist {α : Type} (d : α) :
    ∀ (l : List α) (is : List Nat),
      (∀ i ∈ is, i < l.length) → is.Pairwise (fun a b => a < b) →
      List.Sublist (is.map (fun i => l.getD i d)) l := by
  intro l
  induction l with
  | nil =>
    intro is hin _
    cases is with
    | nil => simp
    | cons i js => exact absurd (hin i (by simp)) (by simp)
  | cons x l ihl =>
    intro is hin hpw
    cases is with
    | nil => simp
    | cons i js =>
      cases i with
      | zero =>
        have hpos : ∀ j ∈ js, 1 ≤ j := by
          intro j hj
          have := (List.pairwise_cons.mp hpw).1 j hj
          omega
        have hmap : js.map (fun i => (x :: l).getD i d)
            = (js.map (fun i => i - 1)).map (fun i => l.getD i d) := by
          rw [List.map_map]
          apply List.map_congr_left
          intro j hj
          obtain ⟨k, rfl⟩ : ∃ k, j = k + 1 := ⟨j - 1, by have := hpos j hj; omega⟩
          simp
        simp only [List.map_cons, List.getD_cons_zero, hmap]
        refine List.Sublist.cons₂ x (ihl _ ?_ ?_)
        · intro i hi
          obtain ⟨j, hj, rfl⟩ := List.mem_map.mp hi
          have hlt := hin j (List.mem_cons_of_mem _ hj)
          have h1 := hpos j hj
          simp only [List.length_cons] at hlt
          omega
        · apply List.pairwise_map.mpr
          refine ((List.pairwise_cons.mp hpw).2).imp_of_mem ?_
          intro a b ha hb hab
          have := hpos a ha
          omega
      | succ n =>
        have hpos : ∀ j ∈ (n + 1) :: js, 1 ≤ j := by
          intro j hj
          rcases List.mem_cons.mp hj with rfl | hj
          · omega
          · have := (List.pairwise_cons.mp hpw).1 j hj; omega
        have hmap : ((n + 1) :: js).map (fun i => (x :: l).getD i d)
            = (((n + 1) :: js).map (fun i => i - 1)).map (fun i => l.getD i d) := by
          rw [List.map_map]
          apply List.map_congr_left
          intro j hj
          obtain ⟨k, rfl⟩ : ∃ k, j = k + 1 := ⟨j - 1, by have := hpos j hj; omega⟩
          simp
        rw [hmap]
        refine List.Sublist.cons x (ihl _ ?_ ?_)
        · intro i hi
          obtain ⟨j, hj, rfl⟩ := List.mem_map.mp hi
          have hlt := hin j hj
          have h1 := hpos j hj
          simp only [List.length_cons] at hlt
          omega
        · apply List.pairwise_map.mpr
          refine hpw.imp_of_mem ?_
          intro a b ha hb hab
          have := hpos a ha
          omega

/-- C4 (amended): when an integer array is extracted from the response,
the backend filter output is exactly the in-range indices, in the order
the model returned them (duplicates retained), mapped to the input tracks;
out-of-range indices are silently dropped; and whenever the extracted
index list is strictly increasing the output is an order-preserving
subsequence of the input using each input position at most once.  The
backend does not itself sort or deduplicate the extracted indices. -/
theorem filter_indices_behavior (jsonParse : List Char → Option (List Int))
    (tracks : List SlimTrack) (content seg : List Char) (idxs : List Int)
    (h1 : extractFirstArray content = some seg)
    (h2 : jsonParse seg = some idxs) :
    filterRealSongs jsonParse tracks (Except.ok content)
      = (idxs.filter
          (fun i => decide (0 ≤ i) && decide (i < (tracks.length : Int)))).map
          (fun i => tracks.getD i.toNat ⟨"", ""⟩) ∧
    (∀ i ∈ idxs, ¬ (0 ≤ i ∧ i < (tracks.length : Int)) →
      i ∉ idxs.filter
        (fun i => decide (0 ≤ i) && decide (i < (tracks.length : Int)))) ∧
    (idxs.Pairwise (fun a b => a < b) →
      List.Sublist (filterRealSongs jsonParse tracks (Except.ok content)) tracks) := by
  have heq : filterRealSongs jsonParse tracks (Except.ok content)
      = (idxs.filter
          (fun i => decide (0 ≤ i) && decide (i < (tracks.length : Int)))).map
          (fun i => tracks.getD i.toNat ⟨"", ""⟩) := by
    simp [filterRealSongs, h1, h2]
  refine ⟨heq, fun i hi hni hmem => ?_, fun hpw => ?_⟩
  · have := (List.mem_filter.mp hmem).2
    simp only [Bool.and_eq_true, decide_eq_true_eq] at this
    exact hni this
  · rw [heq]
    have hcomp : (idxs.filter
          (fun i => decide (0 ≤ i) && decide (i < (tracks.length : Int)))).map
          (fun i => tracks.getD i.toNat ⟨"", ""⟩)
        = ((idxs.filter
            (fun i => decide (0 ≤ i) && decide (i < (tracks.length : Int)))).map
            (fun i => i.toNat)).map (fun i => tracks.getD i ⟨"", ""⟩) := by
      rw [List.map_map]; rfl
    rw [hcomp]
    apply mapGetD_sublist
    · intro i hi
      obtain ⟨j, hj, rfl⟩ := List.mem_map.mp hi
      have := (List.mem_filter.mp hj).2
      simp only [Bool.and_eq_true, decide_eq_true_eq] at this
      omega
    · apply List.pairwise_map.mpr
      refine (hpw.filter _).imp_of_mem ?_
      intro a b ha hb hab
      have := (List.mem_filter.mp ha).2
      simp only [Bool.and_eq_true, decide_eq_true_eq] at this
      omega

/-- C4 witness: a concrete run with extracted indices `[0, 2, 99]` on a
three-track list — the out-of-range 99 is dropped, the output is the
first and third track, an order-preserving subsequence of the input. -/
theorem filter_indices_behavior_witness :
    filterRealSongs (fun _ => some [0, 2, 99])
        [⟨"A", "X"⟩, ⟨"B", "Y"⟩, ⟨"C", "Z"⟩] (Except.ok ("[0, 2, 99]").toList)
      = [⟨"A", "X"⟩, ⟨"C", "Z"⟩] ∧
    List.Sublist
      (filterRealSongs (fun _ => some [0, 2, 99])
        [⟨"A", "X"⟩, ⟨"B", "Y"⟩, ⟨"C", "Z"⟩] (Except.ok ("[0, 2, 99]").toList))
      [⟨"A", "X"⟩, ⟨"B", "Y"⟩, ⟨"C", "Z"⟩] :=
  ⟨((filter_indices_behavior (fun _ => some [0, 2, 99])
      [⟨"A", "X"⟩, ⟨"B", "Y"⟩, ⟨"C", "Z"⟩] "[0, 2, 99]".toList
      "[0, 2, 99]".toList [0, 2, 99] (by decide) rfl).1).trans (by decide),
   (filter_indices_behavior (fun _ => some [0, 2, 99])
      [⟨"A", "X"⟩, ⟨"B", "Y"⟩, ⟨"C", "Z"⟩] "[0, 2, 99]".toList
      "[0, 2, 99]".toList [0, 2, 99] (by decide) rfl).2.2 (by decide)⟩

/-- C4 counterexample: the backend filter applies the indices in the order
the model returned them — with extracted indices `[1, 0]` the output is
the input reversed, which is not an order-preserving subsequence of the
input, refuting the claim that it always is. -/
theorem filter_indices_counterexample :
    filterRealSongs (fun _ => some [1, 0]) [⟨"A", "X"⟩, ⟨"B", "Y"⟩]
        (Except.ok ("[1, 0]").toList)
      = [⟨"B", "Y"⟩, ⟨"A", "X"⟩] ∧
    ¬ List.Sublist [(⟨"B", "Y"⟩ : SlimTrack), ⟨"A", "X"⟩]
        [⟨"A", "X"⟩, ⟨"B", "Y"⟩] := by
  exact ⟨by decide, by decide⟩

theorem audioCompare_le_iff (a b : VideoResult) :
    audioCompare a b ≤ 0 ↔ keyOf a ≤ keyOf b := by
  simp only [audioCompare, keyOf]
  cases hA : hasAudioSignal a.title <;> cases hB : hasAudioSignal b.title <;>
    cases hV : hasVideoSignal a.title <;> cases hW : hasVideoSignal b.title <;>
    simp

theorem keyOf_le_three (v : VideoResult) : keyOf v ≤ 3 := by
  simp only [keyOf]
  split_ifs <;> omega

theorem keyOf_of_mem_bucket {l : List VideoResult} {i : Nat} {y : VideoResult}
    (hy : y ∈ l.filter (fun v => keyOf v == i)) : keyOf y = i := by
  have := (List.mem_filter.mp hy).2
  simpa using this

theorem orderedInsert_append_of_gt (x : VideoResult)
    (P Q : List VideoResult) (h : ∀ y ∈ P, ¬ audioCompare x y ≤ 0) :
    List.orderedInsert (fun a b => audioCompare a b ≤ 0) x (P ++ Q)
      = P ++ List.orderedInsert (fun a b => audioCompare a b ≤ 0) x Q := by
  induction P with
  | nil => rfl
  | cons y P ih =>
    simp only [List.cons_append, List.orderedInsert, List.append_eq]
    rw [if_neg (h y (by simp))]
    rw [ih (fun z hz => h z (by simp [hz]))]

theorem orderedInsert_of_forall_le (x : VideoResult) (Q : List VideoResult)
    (h : ∀ y ∈ Q, audioCompare x y ≤ 0) :
    List.orderedInsert (fun a b => audioCompare a b ≤ 0) x Q = x :: Q := by
  cases Q with
  | nil => rfl
  | cons y Q =>
    simp only [List.orderedInsert]
    rw [if_pos (h y (by simp))]

theorem sortResults_eq_bucketed (l : List VideoResult) :
    sortResults l = bucketed l := by
  induction l with
  | nil => rfl
  | cons x l ih =>
    have hstep : sortResults (x :: l)
        = List.orderedInsert (fun a b => audioCompare a b ≤ 0) x (bucketed l) := by
      simp only [sortResults, List.insertionSort]
      rw [← ih]
      rfl
    rw [hstep]
    cases hA : hasAudioSignal x.title <;> cases hV : hasVideoSignal x.title
    · -- neither signal: key 2, walk past classes 0 and 1
      have hkey : keyOf x = 2 := by simp [keyOf, hA, hV]
      simp only [bucketed]
      rw [orderedInsert_append_of_gt x (l.filter (fun v => keyOf v == 0)) _
        (fun y hy => by
          rw [audioCompare_le_iff, hkey]
          have := keyOf_of_mem_bucket hy; omega)]
      rw [orderedInsert_append_of_gt x (l.filter (fun v => keyOf v == 1)) _
        (fun y hy => by
          rw [audioCompare_le_iff, hkey]
          have := keyOf_of_mem_bucket hy; omega)]
      rw [orderedInsert_of_forall_le x _ (fun y hy => by
        rw [audioCompare_le_iff, hkey]
        rcases List.mem_append.mp hy with hy | hy <;>
          have := keyOf_of_mem_bucket hy <;> omega)]
      simp [List.filter_cons, hkey]
    · -- video only: key 3, walk past classes 0, 1 and 2
      have hkey : keyOf x = 3 := by simp [keyOf, hA, hV]
      simp only [bucketed]
      rw [orderedInsert_append_of_gt x (l.filter (fun v => keyOf v == 0)) _
        (fun y hy => by
          rw [audioCompare_le_iff, hkey]
          have := keyOf_of_mem_bucket hy; omega)]
      rw [orderedInsert_append_of_gt x (l.filter (fun v => keyOf v == 1)) _
        (fun y hy => by
          rw [audioCompare_le_iff, hkey]
          have := keyOf_of_mem_bucket hy; omega)]
      rw [orderedInsert_append_of_gt x (l.filter (fun v => keyOf v == 2)) _
        (fun y hy => by
          rw [audioCompare_le_iff, hkey]
          have := keyOf_of_mem_bucket hy; omega)]
      rw [orderedInsert_of_forall_le x _ (fun y hy => by
        rw [audioCompare_le_iff, hkey]
        have := keyOf_of_mem_bucket hy; omega)]
      simp [List.filter_cons, hkey]
    · -- audio only: key 0, inserted in front of everything
      have hkey : keyOf x = 0 := by simp [keyOf, hA, hV]
      simp only [bucketed]
      rw [orderedInsert_of_forall_le x _ (fun y hy => by
        rw [audioCompare_le_iff, hkey]
        omega)]
      simp [List.filter_cons, hkey]
    · -- audio and video: key 1, walk past class 0
      have hkey : keyOf x = 1 := by simp [keyOf, hA, hV]
      simp only [bucketed]
      rw [orderedInsert_append_of_gt x (l.filter (fun v => keyOf v == 0)) _
        (fun y hy => by
          rw [audioCompare_le_iff, hkey]
          have := keyOf_of_mem_bucket hy; omega)]
      rw [orderedInsert_of_forall_le x _ (fun y hy => by
        rw [audioCompare_le_iff, hkey]
        rcases List.mem_append.mp hy with hy | hy
        · have := keyOf_of_mem_bucket hy; omega
        · rcases List.mem_append.mp hy with hy | hy <;>
            have := keyOf_of_mem_bucket hy <;> omega)]
      simp [List.filter_cons, hkey]

theorem filter_keyOf_eq_nil_of_ge (n : Nat) (hn : 4 ≤ n) (L : List VideoResult) :
    L.filter (fun v => keyOf v == n) = [] := by
  apply List.filter_eq_nil_iff.mpr
  intro y _
  have := keyOf_le_three y
  simp only [beq_iff_eq]
  omega

theorem sortResults_filter_key (l : List VideoResult) (n : Nat) :
    (sortResults l).filter (fun v => keyOf v == n)
      = l.filter (fun v => keyOf v == n) := by
  rw [sortResults_eq_bucketed]
  have hpiece : ∀ i, i ≠ n →
      (l.filter (fun v => keyOf v == i)).filter (fun v => keyOf v == n) = [] := by
    intro i hne
    apply List.filter_eq_nil_iff.mpr
    intro y hy
    have hk := keyOf_of_mem_bucket hy
    simp only [hk, beq_iff_eq]
    exact fun h => hne h
  have hsame :
      (l.filter (fun v => keyOf v == n)).filter (fun v => keyOf v == n)
        = l.filter (fun v => keyOf v == n) := by
    apply List.filter_eq_self.mpr
    intro y hy
    exact (List.mem_filter.mp hy).2
  match n with
  | 0 =>
    simp only [bucketed, List.filter_append]
    rw [hsame, hpiece 1 (by decide), hpiece 2 (by decide), hpiece 3 (by decide)]
    simp
  | 1 =>
    simp only [bucketed, List.filter_append]
    rw [hsame, hpiece 0 (by decide), hpiece 2 (by decide), hpiece 3 (by decide)]
    simp
  | 2 =>
    simp only [bucketed, List.filter_append]
    rw [hsame, hpiece 0 (by decide), hpiece 1 (by decide), hpiece 3 (by decide)]
    simp
  | 3 =>
    simp only [bucketed, List.filter_append]
    rw [hsame, hpiece 0 (by decide), hpiece 1 (by decide), hpiece 2 (by decide)]
    simp
  | (m + 4) =>
    rw [filter_keyOf_eq_nil_of_ge (m + 4) (by omega),
      filter_keyOf_eq_nil_of_ge (m + 4) (by omega)]

theorem sortResults_pairwise (l : List VideoResult) :
    (sortResults l).Pairwise (fun a b => keyOf a ≤ keyOf b) := by
  rw [sortResults_eq_bucketed]
  have hbucket : ∀ i,
      (l.filter (fun v => keyOf v == i)).Pairwise (fun a b => keyOf a ≤ keyOf b) := by
    intro i
    apply List.pairwise_of_forall_mem_list
    intro a ha b hb
    rw [keyOf_of_mem_bucket ha, keyOf_of_mem_bucket hb]
  refine List.pairwise_append.mpr ⟨hbucket 0, ?_, ?_⟩
  · refine List.pairwise_append.mpr ⟨hbucket 1, ?_, ?_⟩
    · refine List.pairwise_append.mpr ⟨hbucket 2, hbucket 3, ?_⟩
      intro a ha b hb
      rw [keyOf_of_mem_bucket ha, keyOf_of_mem_bucket hb]
      omega
    · intro a ha b hb
      rw [keyOf_of_mem_bucket ha]
      rcases List.mem_append.mp hb with hb | hb <;>
        rw [keyOf_of_mem_bucket hb] <;> omega
  · intro a ha b hb
    rw [keyOf_of_mem_bucket ha]
    rcases List.mem_append.mp hb with hb | hb
    · rw [keyOf_of_mem_bucket hb]; omega
    · rcases List.mem_append.mp hb with hb | hb <;>
        rw [keyOf_of_mem_bucket hb] <;> omega

theorem sortResults_idem (l : List VideoResult) :
    sortResults (sortResults l) = sortResults l := by
  rw [sortResults_eq_bucketed (sortResults l)]
  simp only [bucketed, sortResults_filter_key]
  rw [sortResults_eq_bucketed l]
  rfl

/-- C6 (amended): the re-ranking is the stable sort by the two-signal key
(audio-token titles without a video token, then audio-token titles with a
video token, then titles with neither token, then video-token titles), so
the sorted list is a permutation of the input (titles as a multiset are
unchanged), keys are non-decreasing along the output, each key class keeps
its provider order (stability), the sort is idempotent, and the truncation
to `maxResults` happens only after sorting. -/
theorem reranking_behavior (l : List VideoResult) (maxResults : Nat) :
    List.Perm (sortResults l) l ∧
    List.Perm ((sortResults l).map (fun v => v.title))
      (l.map (fun v => v.title)) ∧
    (sortResults l).Pairwise (fun a b => keyOf a ≤ keyOf b) ∧
    (∀ n, (sortResults l).filter (fun v => keyOf v == n)
      = l.filter (fun v => keyOf v == n)) ∧
    sortResults (sortResults l) = sortResults l ∧
    rankedResults l maxResults = (sortResults l).take maxResults :=
  ⟨List.perm_insertionSort (fun a b => audioCompare a b ≤ 0) l,
   (List.perm_insertionSort (fun a b => audioCompare a b ≤ 0) l).map
     (fun v => v.title),
   sortResults_pairwise l,
   sortResults_filter_key l,
   sortResults_idem l,
   rfl⟩

/-- C6 counterexample: two titles both carrying the audio signal are a tie
under the claimed three-class ordering, yet the comparator reorders them
when one also carries a video token — provider order within the claimed
audio class is not preserved. -/
theorem reranking_counterexample :
    hasAudioSignal (⟨"1", "a audio video", "c", "t", "PT0S"⟩ : VideoResult).title
      = true ∧
    hasAudioSignal (⟨"2", "b audio", "c", "t", "PT0S"⟩ : VideoResult).title
      = true ∧
    sortResults [⟨"1", "a audio video", "c", "t", "PT0S"⟩,
        ⟨"2", "b audio", "c", "t", "PT0S"⟩]
      = [⟨"2", "b audio", "c", "t", "PT0S"⟩,
         ⟨"1", "a audio video", "c", "t", "PT0S"⟩] := by
  refine ⟨by decide, by decide, by decide⟩

end FlowState
